import Mathlib

/-!
Verification of the MarkUs API client (markusapi.py) against its
natural-language specification.  The Python source is shallowly embedded:
pure fragments become Lean functions, the HTTP transport is modelled by
passing the server's reply explicitly, Python exceptions become an
explicit error type, machine-level byte strings become lists of naturals.
-/

set_option maxRecDepth 4000

namespace MarkusApi

/-- Python exceptions raised by the client, by kind (with message where the
source supplies one). -/
inductive PyErr where
  | valueError (msg : String)
  | typeError
  | assertionError
  | unicodeDecodeError
  | jsonDecodeError
  deriving Repr, DecidableEq

/-- A Python value appearing as a request-parameter: either a `str` or a
`bytes` object (bytes are modelled as lists of naturals below 256). -/
inductive PVal where
  | vstr (s : String)
  | vbytes (b : List Nat)
  deriving Repr, DecidableEq

/-- Python whitespace characters removed by `str.strip()` (ASCII subset). -/
def isPyWs (c : Char) : Bool :=
  c = ' ' || c = Char.ofNat 9 || c = Char.ofNat 10 || c = Char.ofNat 13 ||
  c = Char.ofNat 11 || c = Char.ofNat 12

/-- Model of Python `str.strip()` (source line 42 strips the url). -/
def pyStrip (s : String) : String :=
  String.mk (((s.data.dropWhile isPyWs).reverse.dropWhile isPyWs).reverse)

/-- Characters allowed in a URL scheme after the first (ASCII letters,
digits, `+`, `-`, `.`), as in `urllib.parse.scheme_chars`. -/
def isSchemeChar (c : Char) : Bool :=
  c.isAlpha || c.isDigit || c = '+' || c = '-' || c = '.'

/-- The components of `urllib.parse.urlparse` that the client uses. -/
structure UrlParts where
  scheme : String
  netloc : String
  path : String
  deriving Repr, DecidableEq

/-- `urlsplit` removes tab, carriage-return and newline characters before
parsing. -/
def removeUnsafeUrlChars (cs : List Char) : List Char :=
  cs.filter (fun c => !(c = Char.ofNat 9 || c = Char.ofNat 13 || c = Char.ofNat 10))

/-- A candidate scheme is valid when nonempty, starting with a letter,
the rest being scheme characters. -/
def schemeOk (pre : List Char) : Bool :=
  match pre with
  | c0 :: rest => c0.isAlpha && rest.all isSchemeChar
  | [] => false

/-- Scheme extraction of `urllib.parse.urlsplit`: the text before the first
`:` is the scheme when it is a letter followed by scheme characters; it is
lower-cased.  Returns (scheme, remainder). -/
def splitScheme (cs : List Char) : String × List Char :=
  let pre := cs.takeWhile (fun c => !(c = ':'))
  if pre.length < cs.length ∧ schemeOk pre then
    (String.mk (pre.map Char.toLower), cs.drop (pre.length + 1))
  else
    ("", cs)

/-- Netloc extraction: after a leading `//`, the netloc runs until the first
 `/`, `?` or `#`.  Returns (netloc, remainder). -/
def splitNetloc (cs : List Char) : List Char × List Char :=
  match cs with
  | '/' :: '/' :: rest =>
    (rest.takeWhile (fun c => !(c = '/' || c = '?' || c = '#')),
     rest.dropWhile (fun c => !(c = '/' || c = '?' || c = '#')))
  | _ => ([], cs)

/-- Model of `urllib.parse.urlparse` restricted to the components the client
reads (scheme, netloc, path; query/fragment are split off and dropped). -/
def urlparse (s : String) : UrlParts :=
  let cs := removeUnsafeUrlChars s.data
  let sr := splitScheme cs
  let nr := splitNetloc sr.2
  let noFrag := nr.2.takeWhile (fun c => !(c = '#'))
  let path := noFrag.takeWhile (fun c => !(c = '?'))
  { scheme := sr.1, netloc := String.mk nr.1, path := String.mk path }

/-- The client object: an API key together with the parsed base URL
(`self.api_key`, `self.parsed_url`). -/
structure Markus where
  api_key : String
  parsed_url : UrlParts
  deriving Repr, DecidableEq

/-- `Markus.API_PATH`, the root api path. -/
def API_PATH : String := "/api"

/-- `Markus.__init__`: stores the key, parses the stripped url, and asserts
that the scheme is http or https (raising `AssertionError` otherwise). -/
def Markus.make (api_key url : String) : Except PyErr Markus :=
  let parsed := urlparse (pyStrip url)
  if parsed.scheme = "http" ∨ parsed.scheme = "https" then
    .ok { api_key := api_key, parsed_url := parsed }
  else
    .error .assertionError

/-- Model of `'/'.join(strs)`. -/
def joinSlash : List String → String
  | [] => ""
  | [s] => s
  | s :: rest => s ++ "/" ++ joinSlash rest

/-- `Markus.get_path`: flattens the ordered (collection, optional id) pairs,
dropping absent ids, joins with `/` and prefixes the api root followed by a
slash (source line 294-295). -/
def get_path (kwargs : List (String × Option Int)) : String :=
  API_PATH ++ "/" ++
    joinSlash (kwargs.flatMap (fun kv => kv.1 :: (kv.2.map toString).toList))

/-- One path piece per pair, as §4.1 of the spec words it: a slash, the
collection name, and a slash plus the identifier when present. -/
def specPiece (kv : String × Option Int) : String :=
  "/" ++ kv.1 ++ (match kv.2 with | some i => "/" ++ toString i | none => "")

/-- Concatenation of the spec-form pieces. -/
def specJoin : List (String × Option Int) → String
  | [] => ""
  | kv :: rest => specPiece kv ++ specJoin rest

/-- The path the spec's words describe: the api root followed by the pieces. -/
def get_path_spec (kwargs : List (String × Option Int)) : String :=
  "/api" ++ specJoin kwargs

/-- The flattened segment list of `get_path`, in direct-recursion form. -/
def flatSegs : List (String × Option Int) → List String
  | [] => []
  | kv :: rest => kv.1 :: ((kv.2.map toString).toList ++ flatSegs rest)

/-! ### UTF-8, modelling Python `str.encode('utf-8')` / `bytes.decode('utf-8')` -/

/-- UTF-8 encoding of a single character (code point below 0x80, 0x800,
0x10000, or above, giving 1-4 bytes). -/
def utf8EncodeChar (c : Char) : List Nat :=
  let n := c.toNat
  if n < 0x80 then [n]
  else if n < 0x800 then [0xC0 + n / 64, 0x80 + n % 64]
  else if n < 0x10000 then
    [0xE0 + n / 4096, 0x80 + n / 64 % 64, 0x80 + n % 64]
  else
    [0xF0 + n / 262144, 0x80 + n / 4096 % 64, 0x80 + n / 64 % 64, 0x80 + n % 64]

/-- UTF-8 encoding of a character sequence. -/
def utf8Encode (cs : List Char) : List Nat := cs.flatMap utf8EncodeChar

/-- Reads one continuation byte, admitting only the range [lo, hi]; returns
its 6 payload bits and the remaining bytes. -/
def contByte (lo hi : Nat) : List Nat → Option (Nat × List Nat)
  | b :: bs => if lo ≤ b ∧ b ≤ hi then some (b - 0x80, bs) else none
  | [] => none

/-- Lower bound of the first continuation byte of a 3-byte sequence
(0xE0 forbids overlong forms). -/
def lo3 (b0 : Nat) : Nat := if b0 = 0xE0 then 0xA0 else 0x80

/-- Upper bound of the first continuation byte of a 3-byte sequence
(0xED forbids surrogates). -/
def hi3 (b0 : Nat) : Nat := if b0 = 0xED then 0x9F else 0xBF

/-- Lower bound of the first continuation byte of a 4-byte sequence
(0xF0 forbids overlong forms). -/
def lo4 (b0 : Nat) : Nat := if b0 = 0xF0 then 0x90 else 0x80

/-- Upper bound of the first continuation byte of a 4-byte sequence
(0xF4 forbids code points above 0x10FFFF). -/
def hi4 (b0 : Nat) : Nat := if b0 = 0xF4 then 0x8F else 0xBF

/-- Strict decoding of one UTF-8 sequence from the front of a byte list, as
CPython's `bytes.decode('utf-8')` checks it: rejects bad lead bytes, bad
continuation bytes, overlong forms, surrogates and values above 0x10FFFF.
Returns the code point and the remaining bytes. -/
def utf8DecOne : List Nat → Option (Nat × List Nat)
  | [] => none
  | b0 :: bs =>
    if b0 < 0x80 then some (b0, bs)
    else if b0 < 0xC2 then none
    else if b0 < 0xE0 then
      (contByte 0x80 0xBF bs).map (fun p => ((b0 - 0xC0) * 64 + p.1, p.2))
    else if b0 < 0xF0 then
      (contByte (lo3 b0) (hi3 b0) bs).bind (fun p =>
        (contByte 0x80 0xBF p.2).map (fun q =>
          ((b0 - 0xE0) * 4096 + p.1 * 64 + q.1, q.2)))
    else if b0 < 0xF5 then
      (contByte (lo4 b0) (hi4 b0) bs).bind (fun p =>
        (contByte 0x80 0xBF p.2).bind (fun q =>
          (contByte 0x80 0xBF q.2).map (fun t =>
            ((b0 - 0xF0) * 262144 + p.1 * 4096 + q.1 * 64 + t.1, t.2))))
    else none

/-- Fuel-driven strict UTF-8 decoding of a whole byte list. -/
def utf8DecList : Nat → List Nat → Option (List Char)
  | _, [] => some []
  | 0, _ :: _ => none
  | fuel+1, b0 :: bs =>
    match utf8DecOne (b0 :: bs) with
    | some (n, rest) => (utf8DecList fuel rest).map (fun cs => Char.ofNat n :: cs)
    | none => none

/-- Strict UTF-8 decoding of a byte list (every decoding step consumes at
least one byte, so the list length is sufficient fuel). -/
def utf8Dec (bs : List Nat) : Option (List Char) := utf8DecList bs.length bs

/-! ### Percent-encoding: `urllib.parse.urlencode` with `quote_plus` -/

/-- Upper-case hexadecimal digit for a value below 16. -/
def hexDigitUpper (n : Nat) : Char :=
  if n < 10 then Char.ofNat (48 + n) else Char.ofNat (55 + n)

/-- Value of a hexadecimal digit character, if it is one. -/
def hexVal? (c : Char) : Option Nat :=
  if 48 ≤ c.toNat ∧ c.toNat ≤ 57 then some (c.toNat - 48)
  else if 65 ≤ c.toNat ∧ c.toNat ≤ 70 then some (c.toNat - 55)
  else if 97 ≤ c.toNat ∧ c.toNat ≤ 102 then some (c.toNat - 87)
  else none

/-- `quote_plus` on one byte: ASCII alphanumerics and `_.-~` stay, space
becomes `+`, everything else becomes a `%XX` escape. -/
def quoteByte (b : Nat) : List Char :=
  if (48 ≤ b ∧ b ≤ 57) ∨ (65 ≤ b ∧ b ≤ 90) ∨ (97 ≤ b ∧ b ≤ 122) ∨
      b = 95 ∨ b = 46 ∨ b = 45 ∨ b = 126 then [Char.ofNat b]
  else if b = 32 then ['+']
  else ['%', hexDigitUpper (b / 16), hexDigitUpper (b % 16)]

/-- `quote_plus` on a byte sequence. -/
def quoteBytes (bs : List Nat) : List Char := bs.flatMap quoteByte

/-- `urllib.parse.quote_plus` on a string: UTF-8 encode, then quote each
byte. -/
def quote_plus (s : String) : String := String.mk (quoteBytes (utf8Encode s.data))

/-- The encoding `urlencode` applies to one value: strings are UTF-8 encoded
then quoted, bytes objects are quoted directly. -/
def quotePValChars : PVal → List Char
  | .vstr s => quoteBytes (utf8Encode s.data)
  | .vbytes b => quoteBytes b

/-- One `key=value` segment of the query string. -/
def encSeg (kv : String × PVal) : List Char :=
  quoteBytes (utf8Encode kv.1.data) ++ '=' :: quotePValChars kv.2

/-- Join with `&` (model of `'&'.join`). -/
def interAmp : List (List Char) → List Char
  | [] => []
  | [x] => x
  | x :: rest => x ++ '&' :: interAmp rest

/-- `urllib.parse.urlencode`: quote each key and value, join pairs with `=`
and the pair list with `&`. -/
def urlencode (params : List (String × PVal)) : String :=
  String.mk (interAmp (params.map encSeg))

/-! ### Query-string parsing (modelled from the spec, see §8: "parsing the
resulting query string back"); the source itself contains no parser.  This
follows `urllib.parse.parse_qsl` with blank values kept: split on `&`, split
each segment at the first `=`, percent-decode both halves. -/

/-- One scanning step of percent-decoding: `+` gives a space byte, a valid
`%XX` escape gives that byte, anything else gives the UTF-8 bytes of the
character itself. Returns the bytes produced and the remaining characters. -/
def unquoteStep (c : Char) (cs : List Char) : List Nat × List Char :=
  if c = '+' then ([32], cs)
  else if c = '%' then
    match cs with
    | h1 :: h2 :: cs2 =>
      match hexVal? h1, hexVal? h2 with
      | some a, some b => ([16 * a + b], cs2)
      | _, _ => (utf8EncodeChar c, cs)
    | _ => (utf8EncodeChar c, cs)
  else (utf8EncodeChar c, cs)

/-- Fuel-driven percent-decoding scan over a character list. -/
def unquoteBytesF : Nat → List Char → List Nat
  | _, [] => []
  | 0, _ :: _ => []
  | fuel+1, c :: cs =>
    let p := unquoteStep c cs
    p.1 ++ unquoteBytesF fuel p.2

/-- Percent-decoding scan (each step consumes at least one character, so the
length is sufficient fuel). -/
def unquoteBytes (cs : List Char) : List Nat := unquoteBytesF cs.length cs

/-- Modelled from the spec: `unquote_plus`, percent-decoding back to a
string; `none` when the decoded bytes are not valid UTF-8. -/
def unquote_plus (s : String) : Option String :=
  (utf8Dec (unquoteBytes s.data)).map String.mk

/-- Split a character list on `&` (model of `qs.split('&')`). -/
def splitOnAmp : List Char → List (List Char)
  | [] => [[]]
  | c :: cs =>
    let rest := splitOnAmp cs
    if c = '&' then [] :: rest
    else (c :: rest.headI) :: rest.tail

/-- Modelled from the spec: parse one `&`-segment, split at its first `=`
(whole segment as name and blank value when there is none, blanks kept),
both halves percent-decoded. -/
def parseSeg1 (seg : List Char) : Option (String × String) :=
  let k := seg.takeWhile (fun c => !(c = '='))
  let v := if k.length = seg.length then [] else seg.drop (k.length + 1)
  match unquote_plus (String.mk k), unquote_plus (String.mk v) with
  | some ks, some vs => some (ks, vs)
  | _, _ => none

/-- Modelled from the spec: parse the `&`-split segments; empty segments are
skipped. -/
def parseSegs : List (List Char) → Option (List (String × String))
  | [] => some []
  | seg :: rest =>
    if seg = [] then parseSegs rest
    else
      match parseSeg1 seg, parseSegs rest with
      | some p, some tail => some (p :: tail)
      | _, _ => none

/-- Modelled from the spec: parse a form-urlencoded query string back into
its key-value pairs. -/
def parse_qsl (s : String) : Option (List (String × String)) :=
  parseSegs (splitOnAmp s.data)

/-! ### JSON serialization: model of `json.dumps` (default `ensure_ascii`)
restricted to the flat string dictionaries this client submits -/

/-- Lower-case hexadecimal digit for a value below 16. -/
def hexDigitLower (n : Nat) : Char :=
  if n < 10 then Char.ofNat (48 + n) else Char.ofNat (87 + n)

/-- A `\uXXXX` escape. -/
def uEsc (n : Nat) : List Char :=
  ['\\', 'u', hexDigitLower (n / 4096 % 16), hexDigitLower (n / 256 % 16),
   hexDigitLower (n / 16 % 16), hexDigitLower (n % 16)]

/-- Escaping of one character inside a JSON string literal, as `json.dumps`
does with `ensure_ascii` on (non-ASCII become `\uXXXX`, astral code points a
surrogate pair). -/
def jsonEscapeChar (c : Char) : List Char :=
  if c = '"' then ['\\', '"']
  else if c = '\\' then ['\\', '\\']
  else if c.toNat = 10 then ['\\', 'n']
  else if c.toNat = 13 then ['\\', 'r']
  else if c.toNat = 9 then ['\\', 't']
  else if c.toNat = 8 then ['\\', 'b']
  else if c.toNat = 12 then ['\\', 'f']
  else if c.toNat < 32 then uEsc c.toNat
  else if c.toNat < 127 then [c]
  else if c.toNat < 0x10000 then uEsc c.toNat
  else uEsc (0xD800 + (c.toNat - 0x10000) / 1024) ++
    uEsc (0xDC00 + (c.toNat - 0x10000) % 1024)

/-- A JSON string literal. -/
def json_dumps_str (s : String) : String :=
  String.mk ('"' :: s.data.flatMap jsonEscapeChar ++ ['"'])

/-- Model of `', '.join`. -/
def joinCommaSpace : List String → String
  | [] => ""
  | [s] => s
  | s :: rest => s ++ ", " ++ joinCommaSpace rest

/-- `json.dumps` on a flat parameter dictionary: string values serialize as
JSON strings, bytes values make `dumps` raise `TypeError`. -/
def json_dumps_pdict (d : List (String × PVal)) : Except PyErr String :=
  if d.any (fun kv => match kv.2 with | .vbytes _ => true | .vstr _ => false) then
    .error .typeError
  else
    .ok (String.mk [Char.ofNat 123] ++
      joinCommaSpace (d.map (fun kv =>
        json_dumps_str kv.1 ++ ": " ++
          (match kv.2 with | .vstr s => json_dumps_str s | .vbytes _ => ""))) ++
      String.mk [Char.ofNat 125])

/-! ### Transport and request submission -/

/-- The reply the remote server gives to one HTTP request: status code,
reason phrase, body bytes (what `resp.status`, `resp.reason`, `resp.read()`
return).  The transport is modelled by passing this reply explicitly. -/
structure HttpResp where
  status : Int
  reason : String
  body : List Nat
  deriving Repr, DecidableEq

/-- The outbound HTTP request handed to `conn.request(...)`: method, full
path, optional body, headers; `https` records which connection class was
chosen. -/
structure Request where
  method : String
  path : String
  body : Option String
  headers : List (String × String)
  https : Bool
  deriving Repr, DecidableEq

/-- Python dict item assignment `d[k] = v` on an association list: replaces
in place when the key exists, appends otherwise. -/
def setItem (d : List (String × String)) (k v : String) : List (String × String) :=
  if (d.lookup k).isSome then d.map (fun kv => if kv.1 = k then (k, v) else kv)
  else d ++ [(k, v)]

/-- `Markus._do_submit_request`: injects the authorization header, opens a
plain or TLS connection according to the configured scheme (raising
`ValueError` on any other scheme), issues the request and returns the
status/reason/body triple of the reply. -/
def do_submit_request (m : Markus) (params : Option String) (path : String)
    (request_type : String) (headers : List (String × String)) (resp : HttpResp) :
    Except PyErr (Request × HttpResp) :=
  let headers2 := setItem headers "Authorization" ("MarkUsAuth " ++ m.api_key)
  if m.parsed_url.scheme = "http" then
    .ok ({ method := request_type, path := m.parsed_url.path ++ path,
           body := params, headers := headers2, https := false }, resp)
  else if m.parsed_url.scheme = "https" then
    .ok ({ method := request_type, path := m.parsed_url.path ++ path,
           body := params, headers := headers2, https := true }, resp)
  else
    .error (.valueError "Panic! Neither http nor https URL.")

/-- A parameter object after the encoding step of `submit_request`: either a
Python `str`, or still the unencoded dictionary. -/
inductive EncParams where
  | estr (s : String)
  | edict (d : List (String × PVal))
  deriving Repr, DecidableEq

/-- The parameter-encoding step of `submit_request`: `None` passes through;
otherwise the dictionary is encoded according to the content type
(form-urlencoding, multipart pass-through, or JSON), and a `ValueError` is
raised when the result is not a string. -/
def encode_params (params : Option (List (String × PVal))) (content_type : String) :
    Except PyErr (Option String) :=
  match params with
  | none => .ok none
  | some d =>
    let e : Except PyErr EncParams :=
      if content_type = "application/x-www-form-urlencoded" then
        .ok (.estr (urlencode d))
      else if content_type = "multipart/form-data" then
        .ok (.edict d)
      else if content_type = "application/json" then
        match json_dumps_pdict d with
        | .ok s => .ok (.estr s)
        | .error err => .error err
      else .ok (.edict d)
    match e with
    | .error err => .error err
    | .ok (.estr s) => .ok (some s)
    | .ok (.edict _) => .error (.valueError
        "If the params are not a string type object please provide a valid content_type")

/-- `Markus.submit_request`: sets the content-type header, encodes the
parameters per the content type, adds `Accept: text/plain` for GET, and
submits. -/
def submit_request (m : Markus) (params : Option (List (String × PVal)))
    (path : String) (request_type : String) (content_type : String)
    (resp : HttpResp) : Except PyErr (Request × HttpResp) :=
  let headers : List (String × String) := [("Content-type", content_type)]
  match encode_params params content_type with
  | .error err => .error err
  | .ok body =>
    let headers2 :=
      if request_type = "GET" then setItem headers "Accept" "text/plain" else headers
    do_submit_request m body path request_type headers2 resp

/-! ### Feedback-file upload -/

/-- One entry of the decoded feedback-file listing: the fields the upload
code reads via `ff.get('id')` and `ff.get('filename')` (absent keys give
`none`). -/
structure FeedbackFileEntry where
  id : Option Int
  filename : Option String
  deriving Repr, DecidableEq

/-- `next((ff.get('id') for ff in feedback_files if ff.get('filename') ==
title), None)`: the id field of the first entry whose filename equals the
title, `none` when no entry matches (or the matching entry has no id). -/
def find_ff_id (title : String) : List FeedbackFileEntry → Option Int
  | [] => none
  | e :: es => if e.filename = some title then e.id else find_ff_id title es

/-- Extension splitting of `os.path.splitext`: everything from the last dot
on, provided some earlier character of the name is not a dot. -/
def splitextExt (name : List Char) : Option (List Char) :=
  let afterRev := name.reverse.takeWhile (fun c => !(c = '.'))
  if afterRev.length = name.length then none
  else
    let pre := name.take (name.length - afterRev.length - 1)
    if pre.any (fun c => !(c = '.')) then some ('.' :: afterRev.reverse)
    else none

/-- A representative subset of the stdlib `mimetypes` extension table. -/
def types_map : List (String × String) :=
  [(".txt", "text/plain"), (".pdf", "application/pdf"), (".html", "text/html"),
   (".htm", "text/html"), (".csv", "text/csv"), (".json", "application/json"),
   (".js", "text/javascript"), (".py", "text/x-python"), (".jpg", "image/jpeg"),
   (".jpeg", "image/jpeg"), (".png", "image/png"), (".gif", "image/gif"),
   (".zip", "application/zip"), (".xml", "text/xml"), (".md", "text/markdown")]

/-- Model of `mimetypes.guess_type(title)[0]`: the extension of the name,
lower-cased, looked up in the type table; `none` when the name has no
extension or the extension is unknown to the table. -/
def guess_type (title : String) : Option String :=
  match splitextExt title.data with
  | some ext => types_map.lookup (String.mk (ext.map Char.toLower))
  | none => none

/-- The replace-or-create decision of `upload_feedback_file`: a truthy
(nonzero, present) id extends the collection path with the id and selects
PUT; otherwise the collection path and POST are kept. -/
def ff_request (path0 : String) : Option Int → String × String
  | some n => if ¬(n = 0) then (path0 ++ "/" ++ toString n, "PUT")
              else (path0, "POST")
  | none => (path0, "POST")

/-- `Markus.upload_feedback_file`.  The preliminary listing request that the
source issues via `get_feedback_files` when `overwrite` holds is modelled by
the `listing` argument (the decoded reply to that request); `resp` is the
server's reply to the upload request itself. -/
def upload_feedback_file (m : Markus) (assignment_id group_id : Int)
    (title : String) (contents : PVal) (mime_type : Option String)
    (overwrite : Bool) (listing : List FeedbackFileEntry) (resp : HttpResp) :
    Except PyErr (Request × HttpResp) :=
  let feedback_file_id : Option Int :=
    if overwrite then find_ff_id title listing else none
  let path0 := get_path [("assignments", some assignment_id),
    ("groups", some group_id), ("feedback_files", none)]
  let pr : String × String := ff_request path0 feedback_file_id
  let mt : Option String :=
    match mime_type with
    | some t => some t
    | none => guess_type title
  match mt with
  | none => .error (.valueError
      "if the mime_type argument is not given you must provide a title file with a valid extension")
  | some mtv =>
    match contents with
    | .vstr s =>
      submit_request m (some [("filename", .vstr title), ("file_content", .vstr s),
        ("mime_type", .vstr mtv)]) pr.1 pr.2 "application/x-www-form-urlencoded" resp
    | .vbytes b =>
      submit_request m (some [("filename", .vbytes (utf8Encode title.data)),
        ("file_content", .vbytes b), ("mime_type", .vbytes (utf8Encode mtv.data))])
        pr.1 pr.2 "multipart/form-data" resp

/-! ### JSON values and parsing: model of `json.loads` -/

/-- A decoded JSON value.  Integer literals decode to `jint`; literals with
a fraction or exponent decode to `jdec mant e` denoting mant·10^e (the
float rounding Python applies on top is abstracted away); `json.loads` also
accepts the non-standard literals NaN and ±Infinity. -/
inductive Json where
  | jnull
  | jbool (b : Bool)
  | jint (n : Int)
  | jdec (mant : Int) (exp10 : Int)
  | jnan
  | jinf
  | jneginf
  | jstr (s : String)
  | jarr (xs : List Json)
  | jobj (kvs : List (String × Json))

/-- JSON whitespace. -/
def isJsonWs (c : Char) : Bool :=
  c = ' ' || c = Char.ofNat 9 || c = Char.ofNat 10 || c = Char.ofNat 13

/-- Skip JSON whitespace. -/
def skipWs (cs : List Char) : List Char := cs.dropWhile isJsonWs

/-- Parse the remainder of a JSON string literal (after the opening quote):
handles the named escapes, `\uXXXX` (combining surrogate pairs, rejecting
lone surrogates, which Lean characters cannot hold), rejects raw control
characters; returns the content and the remainder after the closing
quote. -/
def parseJStr : List Char → Option (List Char × List Char)
  | [] => none
  | c :: cs =>
    if c = '"' then some ([], cs)
    else if c = '\\' then
      match cs with
      | [] => none
      | e :: cs2 =>
        if e = '"' ∨ e = '\\' ∨ e = '/' then
          (parseJStr cs2).map (fun p => (e :: p.1, p.2))
        else if e = 'b' then (parseJStr cs2).map (fun p => (Char.ofNat 8 :: p.1, p.2))
        else if e = 'f' then (parseJStr cs2).map (fun p => (Char.ofNat 12 :: p.1, p.2))
        else if e = 'n' then (parseJStr cs2).map (fun p => (Char.ofNat 10 :: p.1, p.2))
        else if e = 'r' then (parseJStr cs2).map (fun p => (Char.ofNat 13 :: p.1, p.2))
        else if e = 't' then (parseJStr cs2).map (fun p => (Char.ofNat 9 :: p.1, p.2))
        else if e = 'u' then
          match cs2 with
          | h1 :: h2 :: h3 :: h4 :: cs3 =>
            match hexVal? h1, hexVal? h2, hexVal? h3, hexVal? h4 with
            | some a, some b, some c2, some d =>
              let code := ((a * 16 + b) * 16 + c2) * 16 + d
              if 0xD800 ≤ code ∧ code ≤ 0xDBFF then
                match cs3 with
                | e2 :: u2 :: g1 :: g2 :: g3 :: g4 :: cs4 =>
                  if e2 = '\\' ∧ u2 = 'u' then
                    match hexVal? g1, hexVal? g2, hexVal? g3, hexVal? g4 with
                    | some w, some x, some y, some z =>
                      let lo := ((w * 16 + x) * 16 + y) * 16 + z
                      if 0xDC00 ≤ lo ∧ lo ≤ 0xDFFF then
                        (parseJStr cs4).map (fun p =>
                          (Char.ofNat (0x10000 + (code - 0xD800) * 1024 +
                            (lo - 0xDC00)) :: p.1, p.2))
                      else none
                    | _, _, _, _ => none
                  else none
                | _ => none
              else if 0xDC00 ≤ code ∧ code ≤ 0xDFFF then none
              else (parseJStr cs3).map (fun p => (Char.ofNat code :: p.1, p.2))
            | _, _, _, _ => none
          | _ => none
        else none
    else if c.toNat < 0x20 then none
    else (parseJStr cs).map (fun p => (c :: p.1, p.2))

/-- Decimal digits to a natural number. -/
def digitsToNat (ds : List Char) : Nat :=
  ds.foldl (fun acc c => acc * 10 + (c.toNat - 48)) 0

/-- Parse an optional fraction part `.digits`. -/
def parseFracPart (cs : List Char) : Option (Option (List Char) × List Char) :=
  match cs with
  | '.' :: cs2 =>
    let fds := cs2.takeWhile Char.isDigit
    if fds = [] then none else some (some fds, cs2.drop fds.length)
  | _ => some (none, cs)

/-- Parse an optional exponent part `[eE][+-]?digits`. -/
def parseExpPart (cs : List Char) : Option (Option Int × List Char) :=
  match cs with
  | e :: rest =>
    if e = 'e' ∨ e = 'E' then
      let sr : Int × List Char :=
        match rest with
        | '+' :: r2 => (1, r2)
        | '-' :: r2 => (-1, r2)
        | _ => (1, rest)
      let eds := sr.2.takeWhile Char.isDigit
      if eds = [] then none
      else some (some (sr.1 * (digitsToNat eds : Int)), sr.2.drop eds.length)
    else some (none, cs)
  | [] => some (none, [])

/-- Parse a JSON number literal: optional minus, an integer part with no
leading zero, optional fraction and exponent; a plain integer gives `jint`,
otherwise `jdec`. -/
def parseJNum (cs : List Char) : Option (Json × List Char) :=
  let sp : Int × List Char :=
    match cs with
    | '-' :: rest => (-1, rest)
    | _ => (1, cs)
  let ids := sp.2.takeWhile Char.isDigit
  if ids = [] then none
  else if 1 < ids.length ∧ ids.headI = '0' then none
  else
    match parseFracPart (sp.2.drop ids.length) with
    | none => none
    | some (fr, cs2) =>
      match parseExpPart cs2 with
      | none => none
      | some (ex, cs3) =>
        match fr, ex with
        | none, none => some (.jint (sp.1 * (digitsToNat ids : Int)), cs3)
        | _, _ =>
          let fds := fr.getD []
          some (.jdec (sp.1 * (digitsToNat (ids ++ fds) : Int))
            ((ex.getD 0) - (fds.length : Int)), cs3)

/-- Intermediate parse results: a value, array elements, or object
members. -/
inductive JOut where
  | oval (j : Json)
  | oarr (xs : List Json)
  | oobj (kvs : List (String × Json))

/-- What the fuel-driven parser is asked to parse next. -/
inductive JKind where
  | kval
  | karr
  | kobj

/-- Fuel-driven recursive-descent JSON parser following `json.loads`:
values (null, booleans, NaN/±Infinity, numbers, strings, arrays, objects),
comma-separated array elements, and string-keyed object members, with
whitespace allowed between tokens. -/
def parseJ : Nat → JKind → List Char → Option (JOut × List Char)
  | 0, _, _ => none
  | fuel+1, .kval, cs0 =>
    match skipWs cs0 with
    | [] => none
    | c :: rest =>
      if c = 'n' then
        match rest with
        | 'u' :: 'l' :: 'l' :: r => some (.oval .jnull, r)
        | _ => none
      else if c = 't' then
        match rest with
        | 'r' :: 'u' :: 'e' :: r => some (.oval (.jbool true), r)
        | _ => none
      else if c = 'f' then
        match rest with
        | 'a' :: 'l' :: 's' :: 'e' :: r => some (.oval (.jbool false), r)
        | _ => none
      else if c = 'N' then
        match rest with
        | 'a' :: 'N' :: r => some (.oval .jnan, r)
        | _ => none
      else if c = 'I' then
        match rest with
        | 'n' :: 'f' :: 'i' :: 'n' :: 'i' :: 't' :: 'y' :: r => some (.oval .jinf, r)
        | _ => none
      else if c = '-' then
        match rest with
        | 'I' :: 'n' :: 'f' :: 'i' :: 'n' :: 'i' :: 't' :: 'y' :: r =>
          some (.oval .jneginf, r)
        | _ =>
          match parseJNum (c :: rest) with
          | some (v, r) => some (.oval v, r)
          | none => none
      else if c = '"' then
        match parseJStr rest with
        | some (content, r) => some (.oval (.jstr (String.mk content)), r)
        | none => none
      else if c = '[' then
        match skipWs rest with
        | c2 :: r2 =>
          if c2 = ']' then some (.oval (.jarr []), r2)
          else
            match parseJ fuel .karr rest with
            | some (.oarr xs, r3) => some (.oval (.jarr xs), r3)
            | _ => none
        | [] => none
      else if c = Char.ofNat 123 then
        match skipWs rest with
        | c2 :: r2 =>
          if c2 = Char.ofNat 125 then some (.oval (.jobj []), r2)
          else
            match parseJ fuel .kobj rest with
            | some (.oobj kvs, r3) => some (.oval (.jobj kvs), r3)
            | _ => none
        | [] => none
      else
        match parseJNum (c :: rest) with
        | some (v, r) => some (.oval v, r)
        | none => none
  | fuel+1, .karr, cs =>
    match parseJ fuel .kval cs with
    | some (.oval x, r1) =>
      (match skipWs r1 with
       | c :: r2 =>
         if c = ',' then
           match parseJ fuel .karr r2 with
           | some (.oarr xs, r3) => some (.oarr (x :: xs), r3)
           | _ => none
         else if c = ']' then some (.oarr [x], r2)
         else none
       | [] => none)
    | _ => none
  | fuel+1, .kobj, cs =>
    match skipWs cs with
    | c :: r1 =>
      if c = '"' then
        match parseJStr r1 with
        | some (kcs, r2) =>
          (match skipWs r2 with
           | c2 :: r3 =>
             if c2 = ':' then
               match parseJ fuel .kval r3 with
               | some (.oval v, r4) =>
                 (match skipWs r4 with
                  | c3 :: r5 =>
                    if c3 = ',' then
                      match parseJ fuel .kobj r5 with
                      | some (.oobj kvs, r6) =>
                        some (.oobj ((String.mk kcs, v) :: kvs), r6)
                      | _ => none
                    else if c3 = Char.ofNat 125 then
                      some (.oobj [(String.mk kcs, v)], r5)
                    else none
                  | [] => none)
               | _ => none
             else none
           | [] => none)
        | none => none
      else none
    | [] => none

/-- Model of `json.loads`: parse one value and require only whitespace to
remain (each two units of fuel consume at least one character, so the
supplied fuel is sufficient). -/
def json_loads (s : String) : Option Json :=
  match parseJ (2 * s.data.length + 4) .kval s.data with
  | some (.oval v, rest) => if skipWs rest = [] then some v else none
  | _ => none

/-- `Markus.decode_text_response`: UTF-8 decode of the body bytes of the
reply triple, `UnicodeDecodeError` on invalid byte sequences. -/
def decode_text_response (resp : HttpResp) : Except PyErr String :=
  match utf8Dec resp.body with
  | some cs => .ok (String.mk cs)
  | none => .error .unicodeDecodeError

/-- `Markus.decode_json_response`: `json.loads` applied to the decoded
text, `JSONDecodeError` when the text is not valid JSON. -/
def decode_json_response (resp : HttpResp) : Except PyErr Json :=
  match decode_text_response resp with
  | .ok t =>
    match json_loads t with
    | some v => .ok v
    | none => .error .jsonDecodeError
  | .error e => .error e

/-- Number of headers carried under a given name. -/
def countKey (hs : List (String × String)) (k : String) : Nat :=
  (hs.filter (fun kv => kv.1 == k)).length

/-- A sample client for concrete evaluations: key `secret`, base url
`http://example.com`. -/
def sampleClient : Markus :=
  { api_key := "secret",
    parsed_url := { scheme := "http", netloc := "example.com", path := "" } }

/-- A sample server reply for concrete evaluations. -/
def sampleResp : HttpResp := { status := 201, reason := "Created", body := [] }

/-- A sample failing server reply (status 500) for concrete evaluations. -/
def errResp : HttpResp :=
  { status := 500, reason := "Internal Server Error", body := [104, 105] }

/-- A reply whose body bytes spell the JSON text of the claim's example. -/
def jsonResp : HttpResp :=
  { status := 200, reason := "OK", body := [123, 34, 97, 34, 58, 49, 125] }

/-- A reply whose body bytes are not valid UTF-8. -/
def badUtf8Resp : HttpResp := { status := 200, reason := "OK", body := [255] }

/-- A reply whose body decodes to text that is not valid JSON. -/
def badJsonResp : HttpResp := { status := 200, reason := "OK", body := [104, 105] }

theorem joinSlash_append (xs : List String) (y : String) (ys : List String)
    (h : xs ≠ []) :
    joinSlash (xs ++ y :: ys) = joinSlash xs ++ "/" ++ joinSlash (y :: ys) := by
  induction xs with
  | nil => exact absurd rfl h
  | cons x xs ih =>
    cases xs with
    | nil =>
      show joinSlash (x :: y :: ys) = joinSlash [x] ++ "/" ++ joinSlash (y :: ys)
      simp [joinSlash, String.ext_iff]
    | cons x2 xs2 =>
      have e1 : joinSlash ((x :: x2 :: xs2) ++ y :: ys)
          = x ++ "/" ++ joinSlash ((x2 :: xs2) ++ y :: ys) := rfl
      have e2 : joinSlash (x :: x2 :: xs2) = x ++ "/" ++ joinSlash (x2 :: xs2) := rfl
      rw [e1, ih (by simp), e2]
      simp [String.ext_iff]

theorem flatMap_eq_flatSegs (kwargs : List (String × Option Int)) :
    kwargs.flatMap (fun kv => kv.1 :: (kv.2.map toString).toList)
      = flatSegs kwargs := by
  induction kwargs with
  | nil => rfl
  | cons p rest ih => simp [flatSegs, List.flatMap_cons, ih]

/-- For a nonempty pair list, the slash-join of the flattened segments,
preceded by a slash, equals the concatenation of the spec-form pieces. -/
theorem slash_joinSlash_flatSegs (kwargs : List (String × Option Int))
    (h : kwargs ≠ []) :
    "/" ++ joinSlash (flatSegs kwargs) = specJoin kwargs := by
  induction kwargs with
  | nil => exact absurd rfl h
  | cons p rest ih =>
    cases rest with
    | nil =>
      cases hp : p.2 with
      | none => simp [flatSegs, hp, joinSlash, specJoin, specPiece, String.ext_iff]
      | some i => simp [flatSegs, hp, joinSlash, specJoin, specPiece, String.ext_iff]
    | cons q rest2 =>
      have ihq := ih (by simp)
      have hsplit : flatSegs (q :: rest2)
          = q.1 :: ((q.2.map toString).toList ++ flatSegs rest2) := rfl
      have e3 : specJoin (p :: q :: rest2) = specPiece p ++ specJoin (q :: rest2) := rfl
      cases hp : p.2 with
      | none =>
        have e1 : flatSegs (p :: q :: rest2) = [p.1] ++ flatSegs (q :: rest2) := by
          simp [flatSegs, hp]
        rw [e1, hsplit, joinSlash_append [p.1] _ _ (by simp), ← hsplit, e3, ← ihq]
        simp [joinSlash, specPiece, hp, String.ext_iff]
      | some i =>
        have e1 : flatSegs (p :: q :: rest2)
            = [p.1, toString i] ++ flatSegs (q :: rest2) := by
          simp [flatSegs, hp]
        rw [e1, hsplit, joinSlash_append [p.1, toString i] _ _ (by simp), ← hsplit,
          e3, ← ihq]
        simp [joinSlash, specPiece, hp, String.ext_iff]

theorem toNat_ofNat_valid (n : Nat) (h : n.isValidChar) :
    (Char.ofNat n).toNat = n := by
  rw [Char.ofNat, dif_pos h]
  rfl

theorem char_toNat_validChar (c : Char) : c.toNat.isValidChar := c.valid

theorem utf8EncodeChar_lt (c : Char) : ∀ b ∈ utf8EncodeChar c, b < 256 := by
  intro b hb
  have hv := char_toNat_validChar c
  rcases hv with h1 | h2
  · rw [utf8EncodeChar] at hb
    split at hb
    · simp at hb; omega
    · split at hb
      · simp at hb
        rcases hb with h | h <;> omega
      · split at hb
        · simp at hb
          have : c.toNat / 4096 < 16 := by omega
          rcases hb with h | h | h <;> omega
        · omega
  · rw [utf8EncodeChar] at hb
    split at hb
    · simp at hb; omega
    · split at hb
      · simp at hb
        rcases hb with h | h <;> omega
      · split at hb
        · simp at hb
          have : c.toNat / 4096 < 16 := by omega
          rcases hb with h | h | h <;> omega
        · simp at hb
          have : c.toNat / 262144 < 5 := by omega
          rcases hb with h | h | h | h <;> omega

theorem utf8EncodeChar_length_pos (c : Char) : 0 < (utf8EncodeChar c).length := by
  rw [utf8EncodeChar]
  repeat' split
  all_goals simp

/-- Strict one-sequence decoding inverts the one-character encoding, for any
byte tail. -/
theorem utf8DecOne_encodeChar (c : Char) (r : List Nat) :
    utf8DecOne (utf8EncodeChar c ++ r) = some (c.toNat, r) := by
  have hv := char_toNat_validChar c
  have hns : c.toNat < 0xD800 ∨ 0xDFFF < c.toNat := by
    rcases hv with h | h
    · exact Or.inl h
    · exact Or.inr h.1
  have hmax : c.toNat < 0x110000 := by
    rcases hv with h | h
    · omega
    · exact h.2
  rw [utf8EncodeChar]
  by_cases h1 : c.toNat < 0x80
  · rw [if_pos h1]
    show utf8DecOne (c.toNat :: r) = _
    simp only [utf8DecOne]
    rw [if_pos h1]
  · rw [if_neg h1]
    by_cases h2 : c.toNat < 0x800
    · rw [if_pos h2]
      show utf8DecOne ((0xC0 + c.toNat / 64) :: (0x80 + c.toNat % 64) :: r) = _
      simp only [utf8DecOne, contByte]
      rw [if_neg (by omega), if_neg (by omega), if_pos (by omega),
        if_pos (by constructor <;> omega)]
      simp only [Option.map_some']
      rw [show (0xC0 + c.toNat / 64 - 0xC0) * 64 + (0x80 + c.toNat % 64 - 0x80)
        = c.toNat from by omega]
    · rw [if_neg h2]
      by_cases h3 : c.toNat < 0x10000
      · rw [if_pos h3]
        show utf8DecOne ((0xE0 + c.toNat / 4096) :: (0x80 + c.toNat / 64 % 64) ::
          (0x80 + c.toNat % 64) :: r) = _
        simp only [utf8DecOne, contByte]
        rw [if_neg (by omega), if_neg (by omega), if_neg (by omega),
          if_pos (by omega),
          if_pos (And.intro (by simp only [lo3]; split <;> omega)
            (by simp only [hi3]; split <;> omega))]
        simp only [Option.some_bind]
        rw [if_pos (by constructor <;> omega)]
        simp only [Option.map_some']
        rw [show (0xE0 + c.toNat / 4096 - 0xE0) * 4096 +
          (0x80 + c.toNat / 64 % 64 - 0x80) * 64 + (0x80 + c.toNat % 64 - 0x80)
          = c.toNat from by omega]
      · rw [if_neg h3]
        show utf8DecOne ((0xF0 + c.toNat / 262144) :: (0x80 + c.toNat / 4096 % 64) ::
          (0x80 + c.toNat / 64 % 64) :: (0x80 + c.toNat % 64) :: r) = _
        have hd : c.toNat / 262144 ≤ 4 := by omega
        simp only [utf8DecOne, contByte]
        rw [if_neg (by omega), if_neg (by omega), if_neg (by omega),
          if_neg (by omega), if_pos (by omega),
          if_pos (And.intro (by simp only [lo4]; split <;> omega)
            (by simp only [hi4]; split <;> omega))]
        simp only [Option.some_bind]
        rw [if_pos (by constructor <;> omega)]
        simp only [Option.some_bind]
        rw [if_pos (by constructor <;> omega)]
        simp only [Option.map_some']
        rw [show (0xF0 + c.toNat / 262144 - 0xF0) * 262144 +
          (0x80 + c.toNat / 4096 % 64 - 0x80) * 4096 +
          (0x80 + c.toNat / 64 % 64 - 0x80) * 64 + (0x80 + c.toNat % 64 - 0x80)
          = c.toNat from by omega]

theorem utf8DecList_encode (cs : List Char) :
    ∀ fuel : Nat, (utf8Encode cs).length ≤ fuel →
      utf8DecList fuel (utf8Encode cs) = some cs := by
  induction cs with
  | nil =>
    intro fuel _
    cases fuel <;> rfl
  | cons c rest ih =>
    intro fuel hf
    have henc : utf8Encode (c :: rest) = utf8EncodeChar c ++ utf8Encode rest := by
      simp [utf8Encode, List.flatMap_cons]
    rw [henc] at hf ⊢
    obtain ⟨b, t, hbt⟩ : ∃ b t, utf8EncodeChar c = b :: t := by
      cases he : utf8EncodeChar c with
      | nil =>
        have := utf8EncodeChar_length_pos c
        rw [he] at this
        simp at this
      | cons b t => exact ⟨b, t, rfl⟩
    have hlen : 0 < fuel := by
      rw [hbt] at hf
      simp at hf
      omega
    obtain ⟨f, rfl⟩ : ∃ f, fuel = f + 1 := ⟨fuel - 1, by omega⟩
    rw [hbt, List.cons_append, utf8DecList]
    rw [← List.cons_append, ← hbt, utf8DecOne_encodeChar]
    have hrest : (utf8Encode rest).length ≤ f := by
      rw [hbt] at hf
      simp at hf
      omega
    show (utf8DecList f (utf8Encode rest)).map (fun cs => Char.ofNat c.toNat :: cs)
      = some (c :: rest)
    rw [ih f hrest]
    simp [Char.ofNat_toNat]

/-- Strict UTF-8 decoding inverts UTF-8 encoding. -/
theorem utf8Dec_utf8Encode (cs : List Char) :
    utf8Dec (utf8Encode cs) = some cs :=
  utf8DecList_encode cs (utf8Encode cs).length le_rfl

theorem toNat_ofNat_lt (b : Nat) (hb : b < 0xD800) : (Char.ofNat b).toNat = b :=
  toNat_ofNat_valid b (Or.inl hb)

theorem hexVal?_hexDigitUpper (n : Nat) (h : n < 16) :
    hexVal? (hexDigitUpper n) = some n := by
  rw [hexDigitUpper]
  by_cases h10 : n < 10
  · have ht : (Char.ofNat (48 + n)).toNat = 48 + n := toNat_ofNat_lt _ (by omega)
    rw [if_pos h10]
    simp only [hexVal?, ht]
    rw [if_pos (by omega)]
    exact congrArg some (by omega)
  · have ht : (Char.ofNat (55 + n)).toNat = 55 + n := toNat_ofNat_lt _ (by omega)
    rw [if_neg h10]
    simp only [hexVal?, ht]
    rw [if_neg (by omega), if_pos (by omega)]
    exact congrArg some (by omega)

/-- One decoding step inverts the quoting of one byte: the quoted form of a
byte is nonempty, and scanning it (with any tail) produces exactly that byte
and the tail. -/
theorem unquoteStep_quoteByte (b : Nat) (hb : b < 256) (r : List Char) :
    ∃ c t, quoteByte b = c :: t ∧ unquoteStep c (t ++ r) = ([b], r) := by
  by_cases hsafe : (48 ≤ b ∧ b ≤ 57) ∨ (65 ≤ b ∧ b ≤ 90) ∨ (97 ≤ b ∧ b ≤ 122) ∨
      b = 95 ∨ b = 46 ∨ b = 45 ∨ b = 126
  · refine ⟨Char.ofNat b, [], by rw [quoteByte, if_pos hsafe], ?_⟩
    have hb8 : b < 128 := by omega
    have ht : (Char.ofNat b).toNat = b := toNat_ofNat_lt b (by omega)
    have hplus : ¬(Char.ofNat b = '+') := by
      intro h
      have h2 := congrArg Char.toNat h
      rw [ht, show Char.toNat '+' = 43 from rfl] at h2
      omega
    have hpct : ¬(Char.ofNat b = '%') := by
      intro h
      have h2 := congrArg Char.toNat h
      rw [ht, show Char.toNat '%' = 37 from rfl] at h2
      omega
    show unquoteStep (Char.ofNat b) r = ([b], r)
    simp only [unquoteStep]
    rw [if_neg hplus, if_neg hpct]
    simp only [utf8EncodeChar, ht]
    rw [if_pos hb8]
  · by_cases h32 : b = 32
    · refine ⟨'+', [], by rw [quoteByte, if_neg hsafe, if_pos h32], ?_⟩
      show unquoteStep '+' r = ([b], r)
      simp only [unquoteStep]
      rw [if_pos trivial, h32]
    · refine ⟨'%', [hexDigitUpper (b / 16), hexDigitUpper (b % 16)],
        by rw [quoteByte, if_neg hsafe, if_neg h32], ?_⟩
      show unquoteStep '%'
        (hexDigitUpper (b / 16) :: hexDigitUpper (b % 16) :: r) = ([b], r)
      simp only [unquoteStep]
      rw [if_pos trivial,
        hexVal?_hexDigitUpper (b / 16) (by omega),
        hexVal?_hexDigitUpper (b % 16) (by omega)]
      show ([16 * (b / 16) + b % 16], r) = ([b], r)
      rw [show 16 * (b / 16) + b % 16 = b from by omega]

theorem unquoteBytesF_quoteBytes (bs : List Nat) (hb : ∀ b ∈ bs, b < 256) :
    ∀ fuel, (quoteBytes bs).length ≤ fuel →
      unquoteBytesF fuel (quoteBytes bs) = bs := by
  induction bs with
  | nil =>
    intro fuel _
    cases fuel <;> rfl
  | cons b bs2 ih =>
    intro fuel hf
    have hb0 : b < 256 := hb b (by simp)
    have hb2 : ∀ x ∈ bs2, x < 256 := fun x hx => hb x (by simp [hx])
    obtain ⟨c, t, hct, hstep⟩ := unquoteStep_quoteByte b hb0 (quoteBytes bs2)
    have hq : quoteBytes (b :: bs2) = (c :: t) ++ quoteBytes bs2 := by
      rw [quoteBytes, List.flatMap_cons, ← hct]
      rfl
    rw [hq] at hf ⊢
    have hpos : 0 < fuel := by
      simp at hf
      omega
    obtain ⟨f, rfl⟩ : ∃ f, fuel = f + 1 := ⟨fuel - 1, by omega⟩
    rw [List.cons_append]
    show (unquoteStep c (t ++ quoteBytes bs2)).1 ++
      unquoteBytesF f (unquoteStep c (t ++ quoteBytes bs2)).2 = b :: bs2
    rw [hstep]
    have hlf : (quoteBytes bs2).length ≤ f := by
      simp at hf
      omega
    rw [ih hb2 f hlf]
    rfl

theorem utf8Encode_lt (cs : List Char) : ∀ b ∈ utf8Encode cs, b < 256 := by
  intro b hb
  rw [utf8Encode] at hb
  simp only [List.mem_flatMap] at hb
  obtain ⟨c, _, h⟩ := hb
  exact utf8EncodeChar_lt c b h

theorem unquoteBytes_quoteBytes (bs : List Nat) (hb : ∀ b ∈ bs, b < 256) :
    unquoteBytes (quoteBytes bs) = bs :=
  unquoteBytesF_quoteBytes bs hb (quoteBytes bs).length le_rfl

/-- Percent-decoding inverts `quote_plus` on any string. -/
theorem unquote_plus_mk_quote (s : String) :
    unquote_plus (String.mk (quoteBytes (utf8Encode s.data))) = some s := by
  rw [unquote_plus]
  show (utf8Dec (unquoteBytes (quoteBytes (utf8Encode s.data)))).map String.mk = some s
  rw [unquoteBytes_quoteBytes _ (utf8Encode_lt s.data), utf8Dec_utf8Encode]
  rfl

theorem hexDigitUpper_toNat (n : Nat) (h : n < 16) :
    (hexDigitUpper n).toNat = if n < 10 then 48 + n else 55 + n := by
  rw [hexDigitUpper]
  split
  · exact toNat_ofNat_lt _ (by omega)
  · exact toNat_ofNat_lt _ (by omega)

/-- Quoted bytes never contain the reserved characters `&` and `=`. -/
theorem quoteByte_ne_special (b : Nat) (hb : b < 256) :
    ∀ c ∈ quoteByte b, ¬(c = '&') ∧ ¬(c = '=') := by
  intro c hc
  rw [quoteByte] at hc
  split at hc
  · simp at hc
    subst hc
    have ht : (Char.ofNat b).toNat = b := toNat_ofNat_lt b (by omega)
    constructor
    · intro h
      have h2 := congrArg Char.toNat h
      rw [ht, show Char.toNat '&' = 38 from rfl] at h2
      omega
    · intro h
      have h2 := congrArg Char.toNat h
      rw [ht, show Char.toNat '=' = 61 from rfl] at h2
      omega
  · split at hc
    · simp at hc
      subst hc
      exact ⟨by decide, by decide⟩
    · simp at hc
      rcases hc with h | h | h
      · subst h
        exact ⟨by decide, by decide⟩
      · subst h
        have ht := hexDigitUpper_toNat (b / 16) (by omega)
        constructor
        · intro h
          have h2 := congrArg Char.toNat h
          rw [ht, show Char.toNat '&' = 38 from rfl] at h2
          split at h2 <;> omega
        · intro h
          have h2 := congrArg Char.toNat h
          rw [ht, show Char.toNat '=' = 61 from rfl] at h2
          split at h2 <;> omega
      · subst h
        have ht := hexDigitUpper_toNat (b % 16) (by omega)
        constructor
        · intro h
          have h2 := congrArg Char.toNat h
          rw [ht, show Char.toNat '&' = 38 from rfl] at h2
          split at h2 <;> omega
        · intro h
          have h2 := congrArg Char.toNat h
          rw [ht, show Char.toNat '=' = 61 from rfl] at h2
          split at h2 <;> omega

theorem mem_quoteBytes_ne (bs : List Nat) (hb : ∀ b ∈ bs, b < 256) :
    ∀ c ∈ quoteBytes bs, ¬(c = '&') ∧ ¬(c = '=') := by
  intro c hc
  rw [quoteBytes] at hc
  simp only [List.mem_flatMap] at hc
  obtain ⟨b, hbmem, h⟩ := hc
  exact quoteByte_ne_special b (hb b hbmem) c h

theorem splitOnAmp_no_amp (xs : List Char) (h : '&' ∉ xs) :
    splitOnAmp xs = [xs] := by
  induction xs with
  | nil => rfl
  | cons c cs ih =>
    have hc : ¬(c = '&') := fun e => h (by simp [e])
    have hcs : '&' ∉ cs := fun m => h (by simp [m])
    show (if c = '&' then [] :: splitOnAmp cs
      else (c :: (splitOnAmp cs).headI) :: (splitOnAmp cs).tail) = [c :: cs]
    rw [if_neg hc, ih hcs]
    rfl

theorem splitOnAmp_append (xs ys : List Char) (h : '&' ∉ xs) :
    splitOnAmp (xs ++ '&' :: ys) = xs :: splitOnAmp ys := by
  induction xs with
  | nil =>
    show (if ('&' : Char) = '&' then [] :: splitOnAmp ys
      else (('&' : Char) :: (splitOnAmp ys).headI) :: (splitOnAmp ys).tail)
      = [] :: splitOnAmp ys
    rw [if_pos rfl]
  | cons c cs ih =>
    have hc : ¬(c = '&') := fun e => h (by simp [e])
    have hcs : '&' ∉ cs := fun m => h (by simp [m])
    show (if c = '&' then [] :: splitOnAmp (cs ++ '&' :: ys)
      else (c :: (splitOnAmp (cs ++ '&' :: ys)).headI) ::
        (splitOnAmp (cs ++ '&' :: ys)).tail) = (c :: cs) :: splitOnAmp ys
    rw [if_neg hc, ih hcs]
    rfl

theorem takeWhile_until_eq (xs ys : List Char) (h : '=' ∉ xs) :
    (xs ++ '=' :: ys).takeWhile (fun c => !(c = '=')) = xs := by
  induction xs with
  | nil => simp [List.takeWhile_cons]
  | cons c cs ih =>
    have hc : ¬(c = '=') := fun e => h (by simp [e])
    have hcs : '=' ∉ cs := fun m => h (by simp [m])
    simp [List.takeWhile_cons, hc, ih hcs]

theorem drop_len_succ_append (xs ys : List Char) (a : Char) :
    (xs ++ a :: ys).drop (xs.length + 1) = ys := by
  induction xs with
  | nil => rfl
  | cons c cs ih =>
    show (c :: (cs ++ a :: ys)).drop (cs.length + 1 + 1) = ys
    rw [List.drop_succ_cons]
    exact ih

/-- Parsing one encoded `key=value` segment of a string pair recovers the
pair. -/
theorem parseSeg1_encSeg (k v : String) :
    parseSeg1 (encSeg (k, .vstr v)) = some (k, v) := by
  have hkq : ∀ c ∈ quoteBytes (utf8Encode k.data), ¬(c = '&') ∧ ¬(c = '=') :=
    mem_quoteBytes_ne _ (utf8Encode_lt k.data)
  have hke : '=' ∉ quoteBytes (utf8Encode k.data) := fun m => (hkq _ m).2 rfl
  have hseg : encSeg (k, .vstr v)
      = quoteBytes (utf8Encode k.data) ++ '=' :: quoteBytes (utf8Encode v.data) := rfl
  rw [parseSeg1, hseg]
  simp only [takeWhile_until_eq _ _ hke]
  rw [if_neg (by simp), drop_len_succ_append]
  rw [unquote_plus_mk_quote k, unquote_plus_mk_quote v]

/-- Parsing an encoded segment in front of further segments conses the pair
onto their parse. -/
theorem parseSegs_encSeg (k v : String) (segs : List (List Char))
    (t : List (String × String)) (ht : parseSegs segs = some t) :
    parseSegs (encSeg (k, .vstr v) :: segs) = some ((k, v) :: t) := by
  have hne : ¬(encSeg (k, .vstr v) = []) := by
    rw [encSeg]
    simp
  show (if encSeg (k, .vstr v) = [] then parseSegs segs
    else
      match parseSeg1 (encSeg (k, .vstr v)), parseSegs segs with
      | some p, some tail => some (p :: tail)
      | _, _ => none) = some ((k, v) :: t)
  rw [if_neg hne, parseSeg1_encSeg, ht]

theorem amp_not_mem_encSeg (k v : String) : '&' ∉ encSeg (k, .vstr v) := by
  intro h
  have hseg : encSeg (k, .vstr v)
      = quoteBytes (utf8Encode k.data) ++ '=' :: quoteBytes (utf8Encode v.data) := rfl
  rw [hseg] at h
  simp only [List.mem_append, List.mem_cons] at h
  rcases h with h | h | h
  · exact (mem_quoteBytes_ne _ (utf8Encode_lt k.data) _ h).1 rfl
  · exact absurd h (by decide)
  · exact (mem_quoteBytes_ne _ (utf8Encode_lt v.data) _ h).1 rfl

theorem parse_urlencode_aux (m : List (String × String)) :
    parseSegs (splitOnAmp
      (interAmp ((m.map (fun kv => (kv.1, PVal.vstr kv.2))).map encSeg)))
      = some m := by
  induction m with
  | nil => rfl
  | cons p rest ih =>
    cases rest with
    | nil =>
      show parseSegs (splitOnAmp (interAmp [encSeg (p.1, .vstr p.2)])) = some [p]
      rw [show interAmp [encSeg (p.1, .vstr p.2)] = encSeg (p.1, .vstr p.2) from rfl]
      rw [splitOnAmp_no_amp _ (amp_not_mem_encSeg p.1 p.2)]
      rw [parseSegs_encSeg p.1 p.2 [] [] rfl]
    | cons q rest2 =>
      have hih := ih
      show parseSegs (splitOnAmp (interAmp (encSeg (p.1, .vstr p.2) ::
        ((q :: rest2).map (fun kv => (kv.1, PVal.vstr kv.2))).map encSeg)))
        = some (p :: q :: rest2)
      have hmapne : ((q :: rest2).map (fun kv => (kv.1, PVal.vstr kv.2))).map encSeg
          = encSeg (q.1, .vstr q.2) ::
            ((rest2.map (fun kv => (kv.1, PVal.vstr kv.2))).map encSeg) := by
        simp
      rw [hmapne]
      rw [show interAmp (encSeg (p.1, .vstr p.2) :: encSeg (q.1, .vstr q.2) ::
        ((rest2.map (fun kv => (kv.1, PVal.vstr kv.2))).map encSeg))
        = encSeg (p.1, .vstr p.2) ++ '&' ::
          interAmp (encSeg (q.1, .vstr q.2) ::
            ((rest2.map (fun kv => (kv.1, PVal.vstr kv.2))).map encSeg)) from rfl]
      rw [splitOnAmp_append _ _ (amp_not_mem_encSeg p.1 p.2)]
      rw [← hmapne] at *
      exact parseSegs_encSeg p.1 p.2 _ (q :: rest2) hih

theorem encode_params_form (d : List (String × PVal)) :
    encode_params (some d) "application/x-www-form-urlencoded"
      = .ok (some (urlencode d)) := by
  simp only [encode_params]
  rw [if_pos trivial]

theorem encode_params_multipart (d : List (String × PVal)) :
    encode_params (some d) "multipart/form-data"
      = .error (.valueError
          "If the params are not a string type object please provide a valid content_type") := by
  simp only [encode_params]
  rw [if_neg (by decide), if_pos trivial]

theorem encode_params_json (d : List (String × PVal)) :
    encode_params (some d) "application/json"
      = match json_dumps_pdict d with
        | .ok s => .ok (some s)
        | .error err => .error err := by
  simp only [encode_params]
  rw [if_pos trivial]
  cases json_dumps_pdict d <;> rfl

theorem encode_params_other (d : List (String × PVal)) (ct : String)
    (h1 : ¬(ct = "application/x-www-form-urlencoded"))
    (h2 : ¬(ct = "multipart/form-data"))
    (h3 : ¬(ct = "application/json")) :
    encode_params (some d) ct
      = .error (.valueError
          "If the params are not a string type object please provide a valid content_type") := by
  simp only [encode_params]
  rw [if_neg h1, if_neg h2, if_neg h3]

/-- Submitting a parameter dictionary as form-urlencoded (with a non-GET
method) urlencodes it and hands it to the transport. -/
theorem submit_request_form (m : Markus) (d : List (String × PVal))
    (path rt : String) (resp : HttpResp) (hrt : ¬(rt = "GET")) :
    submit_request m (some d) path rt "application/x-www-form-urlencoded" resp
      = do_submit_request m (some (urlencode d)) path rt
          [("Content-type", "application/x-www-form-urlencoded")] resp := by
  simp only [submit_request]
  rw [encode_params_form, if_neg hrt]

/-- Submitting a parameter dictionary as multipart leaves it a dictionary,
so the non-string check raises `ValueError` and nothing reaches the
transport. -/
theorem submit_request_multipart (m : Markus) (d : List (String × PVal))
    (path rt : String) (resp : HttpResp) :
    submit_request m (some d) path rt "multipart/form-data" resp
      = .error (.valueError
          "If the params are not a string type object please provide a valid content_type") := by
  simp only [submit_request]
  rw [encode_params_multipart]

/-- With a valid scheme, the transport returns the reply triple unchanged,
packaged with the request it issued. -/
theorem do_submit_ok (m : Markus) (params : Option String) (path rt : String)
    (headers : List (String × String)) (resp : HttpResp)
    (hs : m.parsed_url.scheme = "http" ∨ m.parsed_url.scheme = "https") :
    ∃ hb : Bool,
      do_submit_request m params path rt headers resp
        = .ok ({ method := rt, path := m.parsed_url.path ++ path, body := params,
                 headers := setItem headers "Authorization"
                   ("MarkUsAuth " ++ m.api_key), https := hb }, resp) := by
  rcases hs with hs | hs
  · refine ⟨false, ?_⟩
    simp only [do_submit_request]
    rw [if_pos hs]
  · refine ⟨true, ?_⟩
    simp only [do_submit_request]
    rw [hs]
    rw [if_neg (by decide), if_pos rfl]

/-- Every successful submission goes through the transport with the
content-type header and, for GET only, the accept header. -/
theorem submit_request_ok_shape (m : Markus) (params : Option (List (String × PVal)))
    (path rt ct : String) (resp : HttpResp) (req : Request) (resp2 : HttpResp)
    (h : submit_request m params path rt ct resp = .ok (req, resp2)) :
    ∃ body : Option String,
      do_submit_request m body path rt
        (if rt = "GET" then setItem [("Content-type", ct)] "Accept" "text/plain"
         else [("Content-type", ct)]) resp = .ok (req, resp2) := by
  simp only [submit_request] at h
  cases params with
  | none => exact ⟨none, h⟩
  | some d =>
    by_cases h1 : ct = "application/x-www-form-urlencoded"
    · subst h1
      rw [encode_params_form] at h
      exact ⟨some (urlencode d), h⟩
    · by_cases h2 : ct = "multipart/form-data"
      · subst h2
        rw [encode_params_multipart] at h
        exact absurd h (by simp)
      · by_cases h3 : ct = "application/json"
        · subst h3
          rw [encode_params_json] at h
          cases hd : json_dumps_pdict d with
          | ok s =>
            rw [hd] at h
            exact ⟨some s, h⟩
          | error err =>
            rw [hd] at h
            exact absurd h (by simp)
        · rw [encode_params_other d ct h1 h2 h3] at h
          exact absurd h (by simp)

/-- The request a successful transport call issues carries the headers it
was given plus the authorization header, and the method it was given. -/
theorem do_submit_request_ok_headers (m : Markus) (body : Option String)
    (path rt : String) (hdrs : List (String × String)) (resp : HttpResp)
    (req : Request) (resp2 : HttpResp)
    (h : do_submit_request m body path rt hdrs resp = .ok (req, resp2)) :
    req.headers = setItem hdrs "Authorization" ("MarkUsAuth " ++ m.api_key) ∧
    req.method = rt := by
  simp only [do_submit_request] at h
  split at h
  · simp only [Except.ok.injEq, Prod.mk.injEq] at h
    rw [← h.1]
    exact ⟨rfl, rfl⟩
  · split at h
    · simp only [Except.ok.injEq, Prod.mk.injEq] at h
      rw [← h.1]
      exact ⟨rfl, rfl⟩
    · simp at h

/-- `find?` finding the first matching entry determines the id that the
generator expression of the source yields. -/
theorem find_ff_id_eq_of_find? (title : String) (listing : List FeedbackFileEntry)
    (e : FeedbackFileEntry)
    (h : listing.find? (fun x => x.filename = some title) = some e) :
    find_ff_id title listing = e.id := by
  induction listing with
  | nil => simp at h
  | cons x xs ih =>
    by_cases hx : x.filename = some title
    · rw [List.find?_cons_of_pos _ (by simp [hx])] at h
      simp only [Option.some.injEq] at h
      subst h
      show (if x.filename = some title then x.id else find_ff_id title xs) = x.id
      rw [if_pos hx]
    · rw [List.find?_cons_of_neg _ (by simp [hx])] at h
      show (if x.filename = some title then x.id else find_ff_id title xs) = e.id
      rw [if_neg hx]
      exact ih h

/-- C8: form-urlencoding any string-to-string parameter mapping and parsing
the query string back yields the original mapping; in particular for the
mapping {a: 1, b: x y} of the claim. -/
theorem c8_form_urlencoded_roundtrip :
    (∀ m : List (String × String),
      parse_qsl (urlencode (m.map (fun kv => (kv.1, PVal.vstr kv.2)))) = some m) ∧
    parse_qsl (urlencode [("a", .vstr "1"), ("b", .vstr "x y")])
      = some [("a", "1"), ("b", "x y")] := by
  constructor
  · intro m
    rw [parse_qsl, urlencode]
    exact parse_urlencode_aux m
  · decide

/-- A string-contents upload with overwrite whose listing lookup is falsy
(no match, or a matched id of 0) issues a POST create to the collection
path. -/
theorem upload_post_shape (m : Markus) (aid gid : Int) (title s mtv : String)
    (listing : List FeedbackFileEntry) (resp : HttpResp)
    (hs : m.parsed_url.scheme = "http" ∨ m.parsed_url.scheme = "https")
    (hf : find_ff_id title listing = none ∨ find_ff_id title listing = some 0) :
    ∃ req : Request,
      upload_feedback_file m aid gid title (.vstr s) (some mtv) true listing resp
        = .ok (req, resp) ∧ req.method = "POST" ∧
      req.path = m.parsed_url.path ++
        get_path [("assignments", some aid), ("groups", some gid),
          ("feedback_files", none)] := by
  have he : upload_feedback_file m aid gid title (.vstr s) (some mtv) true listing resp
      = submit_request m (some [("filename", .vstr title), ("file_content", .vstr s),
          ("mime_type", .vstr mtv)])
          (get_path [("assignments", some aid), ("groups", some gid),
            ("feedback_files", none)]) "POST"
          "application/x-www-form-urlencoded" resp := by
    simp only [upload_feedback_file]
    rcases hf with hf | hf
    · rw [if_pos trivial, hf]
      rfl
    · rw [if_pos trivial, hf,
        show ff_request (get_path [("assignments", some aid), ("groups", some gid),
          ("feedback_files", none)]) (some 0)
        = (get_path [("assignments", some aid), ("groups", some gid),
          ("feedback_files", none)], "POST") from by
          simp only [ff_request]
          rw [if_neg (by simp)]]
  obtain ⟨hb, hdo⟩ := do_submit_ok m (some (urlencode [("filename", .vstr title),
    ("file_content", .vstr s), ("mime_type", .vstr mtv)]))
    (get_path [("assignments", some aid), ("groups", some gid),
      ("feedback_files", none)]) "POST"
    [("Content-type", "application/x-www-form-urlencoded")] resp hs
  exact ⟨_, he.trans ((submit_request_form m _ _ "POST" resp (by decide)).trans hdo),
    rfl, rfl⟩

/-- A string-contents upload with overwrite whose listing lookup finds a
truthy (nonzero) id issues a PUT replace to the item path. -/
theorem upload_put_shape (m : Markus) (aid gid : Int) (title s mtv : String)
    (listing : List FeedbackFileEntry) (resp : HttpResp) (n : Int)
    (hs : m.parsed_url.scheme = "http" ∨ m.parsed_url.scheme = "https")
    (hf : find_ff_id title listing = some n) (hn : ¬(n = 0)) :
    ∃ req : Request,
      upload_feedback_file m aid gid title (.vstr s) (some mtv) true listing resp
        = .ok (req, resp) ∧ req.method = "PUT" ∧
      req.path = m.parsed_url.path ++
        (get_path [("assignments", some aid), ("groups", some gid),
          ("feedback_files", none)] ++ "/" ++ toString n) := by
  have he : upload_feedback_file m aid gid title (.vstr s) (some mtv) true listing resp
      = submit_request m (some [("filename", .vstr title), ("file_content", .vstr s),
          ("mime_type", .vstr mtv)])
          (get_path [("assignments", some aid), ("groups", some gid),
            ("feedback_files", none)] ++ "/" ++ toString n) "PUT"
          "application/x-www-form-urlencoded" resp := by
    simp only [upload_feedback_file]
    rw [if_pos trivial, hf,
      show ff_request (get_path [("assignments", some aid), ("groups", some gid),
        ("feedback_files", none)]) (some n)
      = (get_path [("assignments", some aid), ("groups", some gid),
        ("feedback_files", none)] ++ "/" ++ toString n, "PUT") from by
        simp only [ff_request]
        rw [if_pos hn]]
  obtain ⟨hb, hdo⟩ := do_submit_ok m (some (urlencode [("filename", .vstr title),
    ("file_content", .vstr s), ("mime_type", .vstr mtv)]))
    (get_path [("assignments", some aid), ("groups", some gid),
      ("feedback_files", none)] ++ "/" ++ toString n) "PUT"
    [("Content-type", "application/x-www-form-urlencoded")] resp hs
  exact ⟨_, he.trans ((submit_request_form m _ _ "PUT" resp (by decide)).trans hdo),
    rfl, rfl⟩

/-- C1: every feedback-file upload with bytes contents reaches the
multipart branch of the body encoder, whose dictionary is left unencoded,
and the non-string check then raises `ValueError` — no request is issued
(the source's own docstring and the spec say the raw-bytes case passes
through to the transport). -/
theorem c1_bytes_upload_raises :
    (∀ (m : Markus) (aid gid : Int) (title : String) (b : List Nat) (mtv : String)
      (overwrite : Bool) (listing : List FeedbackFileEntry) (resp : HttpResp),
      upload_feedback_file m aid gid title (.vbytes b) (some mtv) overwrite listing resp
        = .error (.valueError
            "If the params are not a string type object please provide a valid content_type")) ∧
    upload_feedback_file sampleClient 1 2 "a.txt" (.vbytes [104, 105])
      (some "text/plain") false [] sampleResp
      = .error (.valueError
          "If the params are not a string type object please provide a valid content_type") := by
  constructor
  · intro m aid gid title b mtv overwrite listing resp
    simp only [upload_feedback_file]
    rw [submit_request_multipart]
  · rfl

/-- C2 (counterexample): with a listing containing an entry whose filename
exactly equals the title but whose id is 0, the upload issues POST to the
collection path, not the PUT the claim requires. -/
theorem c2_upsert_counterexample :
    (∃ e ∈ [({ id := some 0, filename := some "out.txt" } : FeedbackFileEntry)],
        e.filename = some "out.txt") ∧
    (upload_feedback_file sampleClient 1 2 "out.txt" (.vstr "x") (some "text/plain")
        true [{ id := some 0, filename := some "out.txt" }] sampleResp).toOption.map
      (fun p => (p.1.method, p.1.path))
      = some ("POST", "/api/assignments/1/groups/2/feedback_files") ∧
    ¬(("POST" : String) = "PUT") := by
  refine ⟨⟨{ id := some 0, filename := some "out.txt" }, by simp, rfl⟩, rfl, by decide⟩

/-- C2 (amended): with overwrite requested, the request issued is determined
by the id of the first entry whose filename exactly equals the title: a
present nonzero id gives a PUT to the item path (collection path extended
with that id), while no match — or a match whose id is absent or 0 — gives
a POST to the collection path. -/
theorem c2_upsert_amended :
    ∀ (m : Markus) (aid gid : Int) (title s mtv : String)
      (listing : List FeedbackFileEntry) (resp : HttpResp),
      (m.parsed_url.scheme = "http" ∨ m.parsed_url.scheme = "https") →
      ∃ req : Request,
        upload_feedback_file m aid gid title (.vstr s) (some mtv) true listing resp
          = .ok (req, resp) ∧
        ((∃ n : Int, find_ff_id title listing = some n ∧ ¬(n = 0) ∧
            req.method = "PUT" ∧
            req.path = m.parsed_url.path ++
              (get_path [("assignments", some aid), ("groups", some gid),
                ("feedback_files", none)] ++ "/" ++ toString n)) ∨
         ((find_ff_id title listing = none ∨ find_ff_id title listing = some 0) ∧
            req.method = "POST" ∧
            req.path = m.parsed_url.path ++
              get_path [("assignments", some aid), ("groups", some gid),
                ("feedback_files", none)])) := by
  intro m aid gid title s mtv listing resp hs
  rcases hf : find_ff_id title listing with _ | n
  · obtain ⟨req, h1, h2, h3⟩ :=
      upload_post_shape m aid gid title s mtv listing resp hs (Or.inl hf)
    exact ⟨req, h1, Or.inr ⟨Or.inl rfl, h2, h3⟩⟩
  · by_cases hn : n = 0
    · subst hn
      obtain ⟨req, h1, h2, h3⟩ :=
        upload_post_shape m aid gid title s mtv listing resp hs (Or.inr hf)
      exact ⟨req, h1, Or.inr ⟨Or.inr rfl, h2, h3⟩⟩
    · obtain ⟨req, h1, h2, h3⟩ :=
        upload_put_shape m aid gid title s mtv listing resp n hs hf hn
      exact ⟨req, h1, Or.inl ⟨n, rfl, hn, h2, h3⟩⟩

/-- C2 (witness for the amended theorem): concrete instance on an http
client with a listing holding the file under id 7. -/
theorem c2_upsert_amended_witness :
    ∃ req : Request,
      upload_feedback_file sampleClient 1 2 "out.txt" (.vstr "x") (some "text/plain")
        true [{ id := some 7, filename := some "out.txt" }] sampleResp
        = .ok (req, sampleResp) ∧
      ((∃ n : Int, find_ff_id "out.txt" [{ id := some 7, filename := some "out.txt" }]
          = some n ∧ ¬(n = 0) ∧ req.method = "PUT" ∧
          req.path = sampleClient.parsed_url.path ++
            (get_path [("assignments", some 1), ("groups", some 2),
              ("feedback_files", none)] ++ "/" ++ toString n)) ∨
       ((find_ff_id "out.txt" [{ id := some 7, filename := some "out.txt" }] = none ∨
         find_ff_id "out.txt" [{ id := some 7, filename := some "out.txt" }] = some 0) ∧
          req.method = "POST" ∧
          req.path = sampleClient.parsed_url.path ++
            get_path [("assignments", some 1), ("groups", some 2),
              ("feedback_files", none)])) :=
  c2_upsert_amended sampleClient 1 2 "out.txt" "x" "text/plain"
    [{ id := some 7, filename := some "out.txt" }] sampleResp (Or.inl rfl)

/-- C10: the replace decision is a truthiness test on the matched entry's
id: when the first entry whose filename equals the title has id 0 or no id
at all, the upload issues a POST create to the collection path despite the
filename match. -/
theorem c10_falsy_id_creates :
    ∀ (m : Markus) (aid gid : Int) (title s mtv : String)
      (listing : List FeedbackFileEntry) (resp : HttpResp) (e : FeedbackFileEntry),
      (m.parsed_url.scheme = "http" ∨ m.parsed_url.scheme = "https") →
      listing.find? (fun x => x.filename = some title) = some e →
      (e.id = none ∨ e.id = some 0) →
      ∃ req : Request,
        upload_feedback_file m aid gid title (.vstr s) (some mtv) true listing resp
          = .ok (req, resp) ∧ req.method = "POST" ∧
        req.path = m.parsed_url.path ++
          get_path [("assignments", some aid), ("groups", some gid),
            ("feedback_files", none)] := by
  intro m aid gid title s mtv listing resp e hs hfind hid
  have hf := find_ff_id_eq_of_find? title listing e hfind
  rcases hid with hid | hid
  · rw [hid] at hf
    exact upload_post_shape m aid gid title s mtv listing resp hs (Or.inl hf)
  · rw [hid] at hf
    exact upload_post_shape m aid gid title s mtv listing resp hs (Or.inr hf)

/-- C10 (witness): concrete instance with a matching entry of id 0. -/
theorem c10_falsy_id_creates_witness :
    ∃ req : Request,
      upload_feedback_file sampleClient 1 2 "out.txt" (.vstr "x") (some "text/plain")
        true [{ id := some 0, filename := some "out.txt" }] sampleResp
        = .ok (req, sampleResp) ∧ req.method = "POST" ∧
      req.path = sampleClient.parsed_url.path ++
        get_path [("assignments", some 1), ("groups", some 2),
          ("feedback_files", none)] :=
  c10_falsy_id_creates sampleClient 1 2 "out.txt" "x" "text/plain"
    [{ id := some 0, filename := some "out.txt" }] sampleResp
    { id := some 0, filename := some "out.txt" } (Or.inl rfl) rfl (Or.inr rfl)

/-- C5: with no mime type supplied, the upload derives it from the title's
extension; when derivation yields nothing the call fails with `ValueError`
before any request is issued; `report.pdf` resolves to the PDF mime type
(and the resolved type is carried in the issued body), while `data` fails. -/
theorem c5_mime_resolution :
    (∀ (m : Markus) (aid gid : Int) (contents : PVal) (overwrite : Bool)
      (listing : List FeedbackFileEntry) (resp : HttpResp) (title : String),
      guess_type title = none →
      upload_feedback_file m aid gid title contents none overwrite listing resp
        = .error (.valueError
            "if the mime_type argument is not given you must provide a title file with a valid extension")) ∧
    guess_type "report.pdf" = some "application/pdf" ∧
    guess_type "data" = none ∧
    (upload_feedback_file sampleClient 1 2 "report.pdf" (.vstr "hello world") none
        false [] sampleResp).toOption.map (fun p => p.1.body)
      = some (some
          "filename=report.pdf&file_content=hello+world&mime_type=application%2Fpdf") := by
  refine ⟨?_, rfl, rfl, rfl⟩
  intro m aid gid contents overwrite listing resp title hguess
  simp only [upload_feedback_file]
  rw [hguess]

/-- C5 (witness): uploading `data` without a mime type fails with the
unresolved-mime-type error. -/
theorem c5_mime_resolution_witness :
    upload_feedback_file sampleClient 1 2 "data" (.vstr "x") none true [] sampleResp
      = .error (.valueError
          "if the mime_type argument is not given you must provide a title file with a valid extension") :=
  c5_mime_resolution.1 sampleClient 1 2 (.vstr "x") true [] sampleResp "data" rfl

/-- C6: every request that reaches the transport carries exactly one
content-type header and exactly one authorization header whose value is
`MarkUsAuth` followed by the configured token, and carries the
`Accept: text/plain` header exactly when its method is GET. -/
theorem c6_request_headers :
    ∀ (m : Markus) (params : Option (List (String × PVal))) (path rt ct : String)
      (resp : HttpResp) (req : Request) (resp2 : HttpResp),
      submit_request m params path rt ct resp = .ok (req, resp2) →
      countKey req.headers "Content-type" = 1 ∧
      countKey req.headers "Authorization" = 1 ∧
      req.headers.lookup "Authorization" = some ("MarkUsAuth " ++ m.api_key) ∧
      (("Accept", "text/plain") ∈ req.headers ↔ req.method = "GET") := by
  intro m params path rt ct resp req resp2 h
  obtain ⟨body, hdo⟩ := submit_request_ok_shape m params path rt ct resp req resp2 h
  obtain ⟨hhd, hmeth⟩ := do_submit_request_ok_headers m body path rt _ resp req resp2 hdo
  by_cases hg : rt = "GET"
  · rw [if_pos hg] at hhd
    have hhd2 : req.headers = [("Content-type", ct), ("Accept", "text/plain"),
        ("Authorization", "MarkUsAuth " ++ m.api_key)] := hhd
    refine ⟨by rw [hhd2]; rfl, by rw [hhd2]; rfl, by rw [hhd2]; rfl, ?_⟩
    rw [hhd2, hmeth]
    simp [hg]
  · rw [if_neg hg] at hhd
    have hhd2 : req.headers = [("Content-type", ct),
        ("Authorization", "MarkUsAuth " ++ m.api_key)] := hhd
    refine ⟨by rw [hhd2]; rfl, by rw [hhd2]; rfl, by rw [hhd2]; rfl, ?_⟩
    rw [hhd2, hmeth]
    simp [hg]

/-- C6 (witness): the headers of a concrete GET request. -/
theorem c6_request_headers_witness :
    countKey [("Content-type", "application/x-www-form-urlencoded"),
      ("Accept", "text/plain"), ("Authorization", "MarkUsAuth secret")]
      "Content-type" = 1 ∧
    countKey [("Content-type", "application/x-www-form-urlencoded"),
      ("Accept", "text/plain"), ("Authorization", "MarkUsAuth secret")]
      "Authorization" = 1 ∧
    List.lookup "Authorization"
      [("Content-type", "application/x-www-form-urlencoded"),
       ("Accept", "text/plain"), ("Authorization", "MarkUsAuth secret")]
      = some ("MarkUsAuth " ++ sampleClient.api_key) ∧
    ((("Accept", "text/plain") ∈
        [("Content-type", "application/x-www-form-urlencoded"),
         ("Accept", "text/plain"), ("Authorization", "MarkUsAuth secret")]) ↔
      ("GET" : String) = "GET") :=
  c6_request_headers sampleClient none "/api/users.json" "GET"
    "application/x-www-form-urlencoded" sampleResp
    { method := "GET", path := "/api/users.json", body := none,
      headers := [("Content-type", "application/x-www-form-urlencoded"),
        ("Accept", "text/plain"), ("Authorization", "MarkUsAuth secret")],
      https := false }
    sampleResp rfl

/-- C7: for every server reply — whatever its status code — the transport
returns the reply triple unchanged as an ordinary result; it never raises
because of the status value. -/
theorem c7_status_passthrough :
    ∀ (m : Markus) (params : Option String) (path rt : String)
      (headers : List (String × String)) (resp : HttpResp),
      (m.parsed_url.scheme = "http" ∨ m.parsed_url.scheme = "https") →
      ∃ req : Request,
        do_submit_request m params path rt headers resp = .ok (req, resp) := by
  intro m params path rt headers resp hs
  obtain ⟨hb, hdo⟩ := do_submit_ok m params path rt headers resp hs
  exact ⟨_, hdo⟩

/-- C7 (witness): a 500-status reply is still returned as an ordinary
result. -/
theorem c7_status_passthrough_witness :
    ∃ req : Request,
      do_submit_request sampleClient none "/api/users.json" "GET" [] errResp
        = .ok (req, errResp) :=
  c7_status_passthrough sampleClient none "/api/users.json" "GET" [] errResp
    (Or.inl rfl)

/-- C9: the JSON decoder is the text decoder followed by JSON parsing: on a
body whose bytes are valid UTF-8 JSON it returns the parsed value (in
particular the bytes of the claim's example decode to the object with key
`a` and value 1); the text decoder fails with the decode error on invalid
UTF-8, and the JSON decoder fails with the malformed-payload error when the
decoded text is not valid JSON. -/
theorem c9_decode_json_composition :
    (∀ (resp : HttpResp) (t : String) (v : Json),
      decode_text_response resp = .ok t → json_loads t = some v →
      decode_json_response resp = .ok v) ∧
    (∀ resp : HttpResp, utf8Dec resp.body = none →
      decode_text_response resp = .error .unicodeDecodeError) ∧
    (∀ (resp : HttpResp) (t : String),
      decode_text_response resp = .ok t → json_loads t = none →
      decode_json_response resp = .error .jsonDecodeError) ∧
    decode_json_response jsonResp = .ok (.jobj [("a", .jint 1)]) := by
  refine ⟨?_, ?_, ?_, rfl⟩
  · intro resp t v h1 h2
    simp only [decode_json_response, h1]
    rw [h2]
  · intro resp h
    simp only [decode_text_response, h]
  · intro resp t h1 h2
    simp only [decode_json_response, h1]
    rw [h2]

/-- C9 (witness): the decode hypotheses hold at the claim's concrete
reply body and the composition theorem evaluates there. -/
theorem c9_decode_json_composition_witness :
    decode_json_response jsonResp = .ok (.jobj [("a", .jint 1)]) ∧
    decode_text_response badUtf8Resp = .error .unicodeDecodeError ∧
    decode_json_response badJsonResp = .error .jsonDecodeError :=
  ⟨c9_decode_json_composition.1 jsonResp
      (String.mk [Char.ofNat 123, '"', 'a', '"', ':', '1', Char.ofNat 125])
      (.jobj [("a", .jint 1)]) rfl rfl,
   c9_decode_json_composition.2.1 badUtf8Resp rfl,
   c9_decode_json_composition.2.2.1 badJsonResp (String.mk ['h', 'i']) rfl rfl⟩

/-- C3 (counterexample): on the empty pair sequence the path builder yields
the api root followed by a trailing slash, not the bare api root that the
claim's "for every ordered sequence" wording dictates. -/
theorem c3_get_path_counterexample :
    get_path [] = "/api/" ∧ get_path_spec [] = "/api" ∧ ("/api/" : String) ≠ "/api" :=
  ⟨by decide, by decide, by decide⟩

/-- C3 (amended): for every nonempty ordered sequence of (collection,
optional identifier) pairs, the path builder produces the api root followed
by one `/<collection>/<id>` piece per pair, the identifier segment being
omitted when absent; the empty sequence yields `/api/`.  In particular the
two example paths of the claim are produced. -/
theorem c3_get_path_amended :
    (∀ kwargs : List (String × Option Int), kwargs ≠ [] →
      get_path kwargs = get_path_spec kwargs) ∧
    get_path [] = "/api/" ∧
    get_path [("assignments", some 5), ("groups", some 12)]
      = "/api/assignments/5/groups/12" ∧
    get_path [("assignments", some 5), ("group_ids_by_name", none)]
      = "/api/assignments/5/group_ids_by_name" := by
  refine ⟨fun kwargs h => ?_, by decide, by decide, by decide⟩
  rw [get_path, get_path_spec, flatMap_eq_flatSegs, String.append_assoc,
    slash_joinSlash_flatSegs kwargs h]
  rfl

/-- C3 (witness for the amended theorem): the nonemptiness hypothesis holds
at a one-pair sequence and the amended equation evaluates there. -/
theorem c3_get_path_amended_witness :
    get_path [("assignments", some 5)] = get_path_spec [("assignments", some 5)] :=
  c3_get_path_amended.1 [("assignments", some 5)] (by decide)

/-- C4: construction of the client succeeds (storing the key and parsed url)
exactly when the stripped url parses to scheme http or https, and fails with
the construction-time assertion error on any other scheme. -/
theorem c4_construction_scheme :
    ∀ api_key url : String,
      (((urlparse (pyStrip url)).scheme = "http" ∨
          (urlparse (pyStrip url)).scheme = "https") →
        Markus.make api_key url
          = .ok { api_key := api_key, parsed_url := urlparse (pyStrip url) }) ∧
      (¬((urlparse (pyStrip url)).scheme = "http" ∨
          (urlparse (pyStrip url)).scheme = "https") →
        Markus.make api_key url = .error .assertionError) := by
  intro k u
  constructor
  · intro h
    simp only [Markus.make]
    rw [if_pos h]
  · intro h
    simp only [Markus.make]
    rw [if_neg h]

/-- C4 (witness): an https url constructs successfully, an ftp url fails
with the assertion error. -/
theorem c4_construction_scheme_witness :
    Markus.make "k" "https://example.com"
      = .ok { api_key := "k",
              parsed_url := { scheme := "https", netloc := "example.com", path := "" } } ∧
    Markus.make "k" "ftp://example.com" = .error .assertionError :=
  ⟨(c4_construction_scheme "k" "https://example.com").1 (by decide),
   (c4_construction_scheme "k" "ftp://example.com").2 (by decide)⟩

end MarkusApi
